import Mathlib

/-!
Verification of the package-manager query descriptor (`packmanager/query.go`):
the `Query` structure, its accessors, the functional-option constructors
(`WithSource` … `WithNoOCIPackage`), the builder `NewQuery`, the `Fields`
enumeration and the canonical `String` rendering.

Go types are embedded as follows: Go strings become `String`; the external
`unikraft.ComponentType` (a string-backed tag type) becomes `String`; a Go
slice becomes a `List`; the Go map `map[string]config.AuthConfig`, whose nil
value is distinguishable from an empty map, becomes
`Option (List (String × AuthConfig))` with `none` standing for the nil map;
Go booleans become `Bool`.  A `QueryOption` (`func(*Query)`) becomes a pure
function `Query → Query`.
-/

namespace PackManager

/-- Modelled from the spec: `config.AuthConfig` is an opaque credential
record defined by an external configuration collaborator; this core treats
such records as pass-through data, so the model carries them as an abstract
record with a single opaque payload. -/
structure AuthConfig where
  payload : String
deriving DecidableEq, Repr

/-- `unikraft.ComponentType` is an external string-backed tag type. -/
abbrev ComponentType := String

/-- The auth mapping: `none` models Go's nil map, distinguishable from a
present-but-empty mapping `some []`. -/
abbrev AuthMap := List (String × AuthConfig)

/-- `Query` is the request structure with associated attributes which are
used to search the package manager's catalog. -/
structure Query where
  source : String := ""
  types : List ComponentType := []
  name : String := ""
  version : String := ""
  useCache : Bool := false
  auths : Option AuthMap := none
  all : Bool := false
  noManifestPackage : Bool := false
  noOCIPackage : Bool := false
deriving DecidableEq, Repr

/-- Accessor: `Source()` returns the stored source string. -/
def Query.Source (query : Query) : String :=
  query.source

/-- Accessor: `Types()` returns the stored list of component types. -/
def Query.Types (query : Query) : List ComponentType :=
  query.types

/-- Accessor: `Name()` returns the stored package name. -/
def Query.Name (query : Query) : String :=
  query.name

/-- Accessor: `Version()` returns the stored package version. -/
def Query.Version (query : Query) : String :=
  query.version

/-- Accessor: `UseCache()` returns the stored cache flag. -/
def Query.UseCache (query : Query) : Bool :=
  query.useCache

/-- Accessor: `Auths()` returns the stored auth mapping (possibly nil). -/
def Query.Auths (query : Query) : Option AuthMap :=
  query.auths

/-- Accessor: `All()` returns the value set for all. -/
def Query.All (query : Query) : Bool :=
  query.all

/-- Accessor: `NoManifestPackage()`. -/
def Query.NoManifestPackage (query : Query) : Bool :=
  query.noManifestPackage

/-- Accessor: `NoOCIPackage()`. -/
def Query.NoOCIPackage (query : Query) : Bool :=
  query.noOCIPackage

/-- The value type of the heterogeneous map returned by `Fields()`
(Go `map[string]interface\x7b\x7d`): the concrete values stored there are
strings, type lists and booleans. -/
inductive FieldValue where
  | str : String → FieldValue
  | tys : List ComponentType → FieldValue
  | bool : Bool → FieldValue
deriving DecidableEq, Repr

/-- `Fields()` returns a map with the six keys name, version, source, types,
cache and auth; the auth entry is the boolean `query.auths != nil`.
A Go map literal with literal distinct keys is embedded as the association
list of its entries. -/
def Query.Fields (query : Query) : List (String × FieldValue) :=
  [ ("name", FieldValue.str query.name),
    ("version", FieldValue.str query.version),
    ("source", FieldValue.str query.source),
    ("types", FieldValue.tys query.types),
    ("cache", FieldValue.bool query.useCache),
    ("auth", FieldValue.bool query.auths.isSome) ]

/-- `QueryOption` is a method-option which sets a specific query parameter. -/
abbrev QueryOption := Query → Query

/-- `NewQuery` returns the finalized query given the provided options:
it starts from the zero `Query` and applies each option in order. -/
def NewQuery (qopts : List QueryOption) : Query :=
  qopts.foldl (fun query qopt => qopt query) {}

/-- `WithSource` sets the query parameter for the origin source of the package. -/
def WithSource (source : String) : QueryOption :=
  fun query => { query with source := source }

/-- `WithTypes` sets the query parameter for the specific Unikraft types to
search for (the variadic argument list replaces the stored list). -/
def WithTypes (types : List ComponentType) : QueryOption :=
  fun query => { query with types := types }

/-- `WithName` sets the query parameter for the name of the package. -/
def WithName (name : String) : QueryOption :=
  fun query => { query with name := name }

/-- `WithVersion` sets the query parameter for the version of the package. -/
def WithVersion (version : String) : QueryOption :=
  fun query => { query with version := version }

/-- `WithCache` sets whether to use local caching when making the query. -/
def WithCache (useCache : Bool) : QueryOption :=
  fun query => { query with useCache := useCache }

/-- `WithAuthConfig` sets the required authorization for when making the query. -/
def WithAuthConfig (auths : Option AuthMap) : QueryOption :=
  fun query => { query with auths := auths }

/-- `WithAll` sets the all flag. -/
def WithAll (all : Bool) : QueryOption :=
  fun query => { query with all := all }

/-- `WithNoManifestPackage` sets the no-manifest-package flag. -/
def WithNoManifestPackage (noManifestPackage : Bool) : QueryOption :=
  fun query => { query with noManifestPackage := noManifestPackage }

/-- `WithNoOCIPackage` sets the no-OCI-package flag. -/
def WithNoOCIPackage (noOCIPackage : Bool) : QueryOption :=
  fun query => { query with noOCIPackage := noOCIPackage }

/-- Modelled from the spec: `utils.ListJoinStr` (the repository's
list-formatting helper, not under src/) joins the elements of a string list
with the given separator, as the spec describes for the type segment
("joined by a comma and space"). -/
def ListJoinStr (elems : List String) (sep : String) : String :=
  String.intercalate sep elems

/-- A defensive variant of the rendering used to state totality: the one
place the source indexes a sequence (`cq.types[0]` under the length-one
guard) is modelled with the checked access `List.get?`, so that a `none`
result would witness an out-of-bounds access. -/
def Query.stringChecked (cq : Query) : Option String :=
  (if cq.types.length = 1 then
     (cq.types.get? 0).map (fun t => "" ++ t ++ "-")
   else if cq.types.length > 1 then
     some ("" ++ "\x7b" ++ ListJoinStr (cq.types.map (fun t => t)) ", " ++ "\x7d-")
   else
     some "").map (fun s =>
       (if cq.name.length > 0 then s ++ cq.name else s ++ "*") ++
       (if cq.version.length > 0 then ":" ++ cq.version else ""))

/-- `Query.String` renders the canonical string form of the query, exactly
following the source: a type segment (single type as a prefix, several types
in braces, none omitted), then the name or the wildcard, then an optional
colon-prefixed version. -/
def Query.String (cq : Query) : String :=
  let s := ""
  let s :=
    if cq.types.length = 1 then
      s ++ cq.types[0]! ++ "-"
    else if cq.types.length > 1 then
      s ++ "\x7b" ++ ListJoinStr (cq.types.map (fun t => t)) ", " ++ "\x7d-"
    else
      s
  let s := if cq.name.length > 0 then s ++ cq.name else s ++ "*"
  let s := if cq.version.length > 0 then s ++ ":" ++ cq.version else s
  s

/-- Rendering as worded by the spec (for the refinement comparison in the
claim about the canonical rendering): type segment by cardinality of the
type list, then the name or the wildcard marker, then the optional version
segment, concatenated with no other separators. -/
def stringSpec (q : Query) : String :=
  (match q.types with
   | [] => ""
   | [t] => t ++ "-"
   | ts => "\x7b" ++ String.intercalate ", " ts ++ "\x7d-") ++
  (if q.name ≠ "" then q.name else "*") ++
  (if q.version ≠ "" then ":" ++ q.version else "")

/-- Syntactic description of one application of one of the nine option
constructors, used to quantify over arbitrary option sequences. -/
inductive QOpt where
  | source (s : String)
  | tys (ts : List ComponentType)
  | name (n : String)
  | version (v : String)
  | cache (b : Bool)
  | auth (a : Option AuthMap)
  | all (b : Bool)
  | noManifest (b : Bool)
  | noOCI (b : Bool)
deriving DecidableEq, Repr

/-- The option denoted by a `QOpt`, through the actual constructors. -/
def QOpt.apply : QOpt → QueryOption
  | .source s => WithSource s
  | .tys ts => WithTypes ts
  | .name n => WithName n
  | .version v => WithVersion v
  | .cache b => WithCache b
  | .auth a => WithAuthConfig a
  | .all b => WithAll b
  | .noManifest b => WithNoManifestPackage b
  | .noOCI b => WithNoOCIPackage b

/-- The index (0–8) of the unique field an option targets. -/
def QOpt.field : QOpt → Nat
  | .source _ => 0
  | .tys _ => 1
  | .name _ => 2
  | .version _ => 3
  | .cache _ => 4
  | .auth _ => 5
  | .all _ => 6
  | .noManifest _ => 7
  | .noOCI _ => 8

/-- Extract the argument of a source option. -/
def QOpt.source? : QOpt → Option String
  | .source s => some s
  | _ => none

/-- Extract the argument of a types option. -/
def QOpt.tys? : QOpt → Option (List ComponentType)
  | .tys ts => some ts
  | _ => none

/-- Extract the argument of a name option. -/
def QOpt.name? : QOpt → Option String
  | .name n => some n
  | _ => none

/-- Extract the argument of a version option. -/
def QOpt.version? : QOpt → Option String
  | .version v => some v
  | _ => none

/-- Extract the argument of a cache option. -/
def QOpt.cache? : QOpt → Option Bool
  | .cache b => some b
  | _ => none

/-- Extract the argument of an auth option. -/
def QOpt.auth? : QOpt → Option (Option AuthMap)
  | .auth a => some a
  | _ => none

/-- Extract the argument of an all option. -/
def QOpt.all? : QOpt → Option Bool
  | .all b => some b
  | _ => none

/-- Extract the argument of a no-manifest-package option. -/
def QOpt.noManifest? : QOpt → Option Bool
  | .noManifest b => some b
  | _ => none

/-- Extract the argument of a no-OCI-package option. -/
def QOpt.noOCI? : QOpt → Option Bool
  | .noOCI b => some b
  | _ => none

/-- The value supplied by the last option of the sequence that the extractor
`f` recognises, or the default when none does. -/
def lastVal {α : Type} (f : QOpt → Option α) (d : α) (os : List QOpt) : α :=
  (os.reverse.filterMap f).headD d

/-- Setting field `i` of a query to its zero value, leaving the rest; used
to state that an option touches no field but its own. -/
def eraseField : Nat → Query → Query
  | 0, q => { q with source := "" }
  | 1, q => { q with types := [] }
  | 2, q => { q with name := "" }
  | 3, q => { q with version := "" }
  | 4, q => { q with useCache := false }
  | 5, q => { q with auths := none }
  | 6, q => { q with all := false }
  | 7, q => { q with noManifestPackage := false }
  | 8, q => { q with noOCIPackage := false }
  | _, q => q

/-! ### Helper lemmas -/

/-- A Go string-length positivity test is the same as a non-emptiness test. -/
theorem string_length_pos_iff (s : String) : 0 < s.length ↔ s ≠ "" := by
  obtain ⟨l⟩ := s
  simp [String.length_mk, List.length_pos, String.ext_iff]

/-- `lastVal` over a sequence extended on the right: the new option wins when
the extractor recognises it. -/
theorem lastVal_append_one {α : Type} (f : QOpt → Option α) (d : α)
    (os : List QOpt) (o : QOpt) :
    lastVal f d (os ++ [o]) = (f o).getD (lastVal f d os) := by
  unfold lastVal
  rw [List.reverse_append]
  cases h : f o <;> simp [h, List.filterMap_cons]

/-- `NewQuery` over a sequence extended on the right applies the new option
to the query built from the prefix. -/
theorem newQuery_append (os : List QOpt) (o : QOpt) :
    NewQuery ((os ++ [o]).map QOpt.apply) = o.apply (NewQuery (os.map QOpt.apply)) := by
  unfold NewQuery
  rw [List.map_append, List.foldl_append]
  rfl

/-- Characterisation of the builder: every field of the built query is the
argument of the last option targeting it, or the zero value. -/
theorem newQuery_lastVals (os : List QOpt) :
    NewQuery (os.map QOpt.apply) =
      { source := lastVal QOpt.source? "" os,
        types := lastVal QOpt.tys? [] os,
        name := lastVal QOpt.name? "" os,
        version := lastVal QOpt.version? "" os,
        useCache := lastVal QOpt.cache? false os,
        auths := lastVal QOpt.auth? none os,
        all := lastVal QOpt.all? false os,
        noManifestPackage := lastVal QOpt.noManifest? false os,
        noOCIPackage := lastVal QOpt.noOCI? false os } := by
  induction os using List.reverseRecOn with
  | nil => rfl
  | append_singleton os o ih =>
      rw [newQuery_append, ih]
      cases o <;>
        simp [QOpt.apply, WithSource, WithTypes, WithName, WithVersion, WithCache,
          WithAuthConfig, WithAll, WithNoManifestPackage, WithNoOCIPackage,
          lastVal_append_one, QOpt.source?, QOpt.tys?, QOpt.name?, QOpt.version?,
          QOpt.cache?, QOpt.auth?, QOpt.all?, QOpt.noManifest?, QOpt.noOCI?]

/-- When no two options of the sequence can both be recognised by `f`, at
most one element survives `filterMap f`. -/
theorem filterMap_length_le_one {α : Type} (f : QOpt → Option α) :
    ∀ os : List QOpt, (os.Pairwise fun a b => ¬((f a).isSome ∧ (f b).isSome)) →
      (os.filterMap f).length ≤ 1 := by
  intro os h
  induction os with
  | nil => simp
  | cons a os ih =>
      rw [List.pairwise_cons] at h
      obtain ⟨ha, hos⟩ := h
      cases hfa : f a with
      | none => simpa [List.filterMap_cons, hfa] using ih hos
      | some v =>
          have hnone : ∀ b ∈ os, f b = none := by
            intro b hb
            have := ha b hb
            rw [hfa] at this
            simp only [Option.isSome_some, true_and] at this
            exact Option.not_isSome_iff_eq_none.mp this
          have : os.filterMap f = [] := List.filterMap_eq_nil_iff.mpr hnone
          simp [List.filterMap_cons, hfa, this]

/-- Two lists that are permutations of each other and have at most one
element are equal. -/
theorem perm_eq_of_length_le_one {α : Type} {l₁ l₂ : List α}
    (hp : l₁.Perm l₂) (hl : l₁.length ≤ 1) : l₁ = l₂ := by
  match l₁, hl with
  | [], _ => exact (hp.symm.eq_nil).symm
  | [a], _ => exact (List.perm_singleton.mp hp.symm).symm
  | a :: b :: l, hl => simp at hl

/-- For an extractor recognising only options of one field, `lastVal` is
invariant under permutations whose options target pairwise-distinct fields. -/
theorem lastVal_perm {α : Type} {f : QOpt → Option α} {k : Nat}
    (hf : ∀ o, (f o).isSome → QOpt.field o = k) (d : α) {os₁ os₂ : List QOpt}
    (hp : os₁.Perm os₂) (hd : os₁.Pairwise fun a b => a.field ≠ b.field) :
    lastVal f d os₁ = lastVal f d os₂ := by
  have hpw : os₁.Pairwise fun a b => ¬((f a).isSome ∧ (f b).isSome) := by
    refine hd.imp ?_
    intro a b hab hsome
    exact hab ((hf a hsome.1).trans (hf b hsome.2).symm)
  have h1 : (os₁.filterMap f).length ≤ 1 := filterMap_length_le_one f os₁ hpw
  have heq : os₁.filterMap f = os₂.filterMap f :=
    perm_eq_of_length_le_one (hp.filterMap f) h1
  unfold lastVal
  rw [List.filterMap_reverse, List.filterMap_reverse, heq]

/-! ### Claim theorems -/

/-- C1: for every finite sequence of query options, building with `NewQuery`
and reading any single accessor (`Source`, `Types`, `Name`, `Version`,
`UseCache`, `Auths`, `All`, `NoManifestPackage`, `NoOCIPackage`) returns
exactly the value supplied by the last option in the sequence targeting
that accessor's field, or the field's zero value if no option targets it. -/
theorem newQuery_accessors_last_wins (os : List QOpt) :
    (NewQuery (os.map QOpt.apply)).Source = lastVal QOpt.source? "" os ∧
    (NewQuery (os.map QOpt.apply)).Types = lastVal QOpt.tys? [] os ∧
    (NewQuery (os.map QOpt.apply)).Name = lastVal QOpt.name? "" os ∧
    (NewQuery (os.map QOpt.apply)).Version = lastVal QOpt.version? "" os ∧
    (NewQuery (os.map QOpt.apply)).UseCache = lastVal QOpt.cache? false os ∧
    (NewQuery (os.map QOpt.apply)).Auths = lastVal QOpt.auth? none os ∧
    (NewQuery (os.map QOpt.apply)).All = lastVal QOpt.all? false os ∧
    (NewQuery (os.map QOpt.apply)).NoManifestPackage = lastVal QOpt.noManifest? false os ∧
    (NewQuery (os.map QOpt.apply)).NoOCIPackage = lastVal QOpt.noOCI? false os := by
  rw [newQuery_lastVals]
  exact ⟨rfl, rfl, rfl, rfl, rfl, rfl, rfl, rfl, rfl⟩

/-- C2: building from two option sequences that are permutations of each
other, all options targeting pairwise-distinct fields, yields equal
descriptors; whereas two options targeting the same field applied in
different orders can yield different descriptors (last wins). -/
theorem newQuery_perm_comm_distinct_fields :
    (∀ os₁ os₂ : List QOpt, os₁.Perm os₂ →
        (os₁.Pairwise fun a b => a.field ≠ b.field) →
        NewQuery (os₁.map QOpt.apply) = NewQuery (os₂.map QOpt.apply)) ∧
    (∃ o₁ o₂ : QOpt, o₁.field = o₂.field ∧
        NewQuery ([o₁, o₂].map QOpt.apply) ≠ NewQuery ([o₂, o₁].map QOpt.apply)) := by
  constructor
  · intro os₁ os₂ hp hd
    have h0 : ∀ o : QOpt, (QOpt.source? o).isSome → QOpt.field o = 0 := by
      intro o; cases o <;> simp [QOpt.source?, QOpt.field]
    have h1 : ∀ o : QOpt, (QOpt.tys? o).isSome → QOpt.field o = 1 := by
      intro o; cases o <;> simp [QOpt.tys?, QOpt.field]
    have h2 : ∀ o : QOpt, (QOpt.name? o).isSome → QOpt.field o = 2 := by
      intro o; cases o <;> simp [QOpt.name?, QOpt.field]
    have h3 : ∀ o : QOpt, (QOpt.version? o).isSome → QOpt.field o = 3 := by
      intro o; cases o <;> simp [QOpt.version?, QOpt.field]
    have h4 : ∀ o : QOpt, (QOpt.cache? o).isSome → QOpt.field o = 4 := by
      intro o; cases o <;> simp [QOpt.cache?, QOpt.field]
    have h5 : ∀ o : QOpt, (QOpt.auth? o).isSome → QOpt.field o = 5 := by
      intro o; cases o <;> simp [QOpt.auth?, QOpt.field]
    have h6 : ∀ o : QOpt, (QOpt.all? o).isSome → QOpt.field o = 6 := by
      intro o; cases o <;> simp [QOpt.all?, QOpt.field]
    have h7 : ∀ o : QOpt, (QOpt.noManifest? o).isSome → QOpt.field o = 7 := by
      intro o; cases o <;> simp [QOpt.noManifest?, QOpt.field]
    have h8 : ∀ o : QOpt, (QOpt.noOCI? o).isSome → QOpt.field o = 8 := by
      intro o; cases o <;> simp [QOpt.noOCI?, QOpt.field]
    rw [newQuery_lastVals, newQuery_lastVals]
    simp only [Query.mk.injEq]
    exact ⟨lastVal_perm h0 "" hp hd, lastVal_perm h1 [] hp hd,
      lastVal_perm h2 "" hp hd, lastVal_perm h3 "" hp hd,
      lastVal_perm h4 false hp hd, lastVal_perm h5 none hp hd,
      lastVal_perm h6 false hp hd, lastVal_perm h7 false hp hd,
      lastVal_perm h8 false hp hd⟩
  · exact ⟨QOpt.name "a", QOpt.name "b", rfl, by decide⟩

/-- C3: applying the same option twice in succession yields the same
descriptor as applying it once; and `WithTypes` replaces any previously
stored type list with its argument list (also when that list is empty),
never appending. -/
theorem option_idempotent_types_replace :
    (∀ (o : QOpt) (q : Query), o.apply (o.apply q) = o.apply q) ∧
    (∀ (ts : List ComponentType) (q : Query), (WithTypes ts q).Types = ts) := by
  constructor
  · intro o q; cases o <;> rfl
  · intro ts q; rfl

/-- C5: `Fields()` maps the key "auth" to `true` exactly when the auth
mapping is non-nil (also when present but empty), to `false` exactly when
it is nil, and exposes only this presence boolean, never the credential
records. -/
theorem fields_auth_presence (q : Query) :
    (q.Fields.lookup "auth" = some (FieldValue.bool true) ↔ q.Auths ≠ none) ∧
    (q.Fields.lookup "auth" = some (FieldValue.bool false) ↔ q.Auths = none) ∧
    q.Fields.lookup "auth" = some (FieldValue.bool q.Auths.isSome) := by
  have h : q.Fields.lookup "auth" = some (FieldValue.bool q.auths.isSome) := rfl
  rw [h]
  cases hq : q.auths <;> simp [Query.Auths, hq]

/-- C6: `NewQuery` applied to zero options returns the all-zero descriptor:
empty strings, `false` flags, empty type list and nil auth mapping. -/
theorem newQuery_zero_options :
    (NewQuery []).Source = "" ∧ (NewQuery []).Types = [] ∧
    (NewQuery []).Name = "" ∧ (NewQuery []).Version = "" ∧
    (NewQuery []).UseCache = false ∧ (NewQuery []).Auths = none ∧
    (NewQuery []).All = false ∧ (NewQuery []).NoManifestPackage = false ∧
    (NewQuery []).NoOCIPackage = false :=
  ⟨rfl, rfl, rfl, rfl, rfl, rfl, rfl, rfl, rfl⟩

/-- C7: every option is a frame-respecting single-field update: applying it
to any descriptor under construction leaves every field other than the one
it targets exactly as it was (erasing the targeted field on both sides
makes the descriptors equal). -/
theorem option_frame_single_field (o : QOpt) (q : Query) :
    eraseField o.field (o.apply q) = eraseField o.field q := by
  cases o <;> rfl

/-- C8: the canonical rendering depends only on the types, name and version
fields: two descriptors agreeing on those three render to the same string,
whatever their other six fields hold. -/
theorem string_depends_only_on_types_name_version (q₁ q₂ : Query)
    (ht : q₁.types = q₂.types) (hn : q₁.name = q₂.name)
    (hv : q₁.version = q₂.version) : q₁.String = q₂.String := by
  unfold Query.String
  rw [ht, hn, hv]

/-- Witness for C8: two descriptors differing in every field but types,
name and version render identically. -/
theorem string_depends_only_on_types_name_version_witness :
    Query.String { source := "s", types := ["lib"], name := "n", version := "v",
                   useCache := true, auths := some [], all := true,
                   noManifestPackage := true, noOCIPackage := true } =
    Query.String { types := ["lib"], name := "n", version := "v" } :=
  string_depends_only_on_types_name_version _ _ rfl rfl rfl

/-- C10: `Fields()` enumerates exactly the six keys name, version, source,
types, cache and auth — the all, noManifestPackage and noOCIPackage flags
are absent — and the values at the first five equal the corresponding
accessor results. -/
theorem fields_exactly_six_keys (q : Query) :
    q.Fields.map Prod.fst = ["name", "version", "source", "types", "cache", "auth"] ∧
    q.Fields.lookup "name" = some (FieldValue.str q.Name) ∧
    q.Fields.lookup "version" = some (FieldValue.str q.Version) ∧
    q.Fields.lookup "source" = some (FieldValue.str q.Source) ∧
    q.Fields.lookup "types" = some (FieldValue.tys q.Types) ∧
    q.Fields.lookup "cache" = some (FieldValue.bool q.UseCache) ∧
    q.Fields.lookup "all" = none ∧
    q.Fields.lookup "noManifestPackage" = none ∧
    q.Fields.lookup "noOCIPackage" = none :=
  ⟨rfl, rfl, rfl, rfl, rfl, rfl, rfl, rfl, rfl⟩

/-- The source rendering agrees with the spec's worded rendering on every
descriptor. -/
theorem string_eq_stringSpec (q : Query) : q.String = stringSpec q := by
  obtain ⟨so, ts, n, v, uc, au, al, nm, no⟩ := q
  simp only [Query.String, stringSpec, ListJoinStr]
  rcases ts with _ | ⟨t, _ | ⟨t₂, rest⟩⟩
  · simp only [List.length_nil, gt_iff_lt, string_length_pos_iff]
    norm_num
    by_cases hn : n = "" <;> by_cases hv : v = "" <;>
      simp [hn, hv, String.empty_append, ← String.append_assoc]
  · simp only [List.length_cons, List.length_nil, gt_iff_lt, string_length_pos_iff,
      List.getElem!_cons_zero]
    norm_num
    by_cases hn : n = "" <;> by_cases hv : v = "" <;>
      simp [hn, hv, String.empty_append, ← String.append_assoc]
  · have h1 : ¬((t :: t₂ :: rest).length = 1) := by simp
    have h2 : 1 < (t :: t₂ :: rest).length := by simp
    simp only [h1, h2, if_true, if_false, ite_false, ite_true, gt_iff_lt,
      string_length_pos_iff, List.map_id']
    by_cases hn : n = "" <;> by_cases hv : v = "" <;>
      simp [hn, hv, String.empty_append, ← String.append_assoc]

/-- C4: the canonical rendering follows the spec's algorithm — type segment
by cardinality of the type list (one element as a dash-suffixed prefix,
several joined with comma-space inside braces, none omitted), then the name
or the wildcard marker, then the optional colon-prefixed version — and in
particular produces the four sample renderings. -/
theorem string_rendering_canonical :
    (∀ q : Query, q.String = stringSpec q) ∧
    Query.String { types := ["lib"], name := "foo", version := "1.0" } = "lib-foo:1.0" ∧
    Query.String { types := ["lib", "app"], name := "" } = "\x7blib, app\x7d-*" ∧
    Query.String { types := [], name := "foo", version := "" } = "foo" ∧
    Query.String {} = "*" :=
  ⟨string_eq_stringSpec, rfl, rfl, rfl, rfl⟩

/-- The checked rendering never fails and returns the rendered string. -/
theorem stringChecked_eq_some_string (q : Query) :
    q.stringChecked = some q.String := by
  obtain ⟨so, ts, n, v, uc, au, al, nm, no⟩ := q
  simp only [Query.stringChecked, Query.String]
  rcases ts with _ | ⟨t, _ | ⟨t₂, rest⟩⟩
  · simp only [List.length_nil]
    norm_num
    by_cases hv : 0 < v.length <;>
      simp [hv, String.append_empty, String.append_assoc]
  · simp only [List.length_cons, List.length_nil, List.getElem!_cons_zero,
      List.get?_cons_zero, Option.map_some]
    norm_num
    by_cases hv : 0 < v.length <;>
      simp [hv, String.append_empty, String.append_assoc]
  · have h1 : ¬((t :: t₂ :: rest).length = 1) := by simp
    have h2 : 1 < (t :: t₂ :: rest).length := by simp
    simp only [h1, h2, if_true, if_false, ite_false, ite_true, Option.map_some]
    by_cases hv : 0 < v.length <;>
      simp [hv, String.append_empty, String.append_assoc]

/-- C9: construction, accessors and rendering are total: the rendering's
single sequence access is always in bounds (the checked rendering returns
`some` on every descriptor, also the zero one), and contradictory flag
combinations such as all set together with a specific name are accepted
as-is by the builder. -/
theorem construction_and_rendering_total :
    (∀ q : Query, q.stringChecked = some q.String) ∧
    Query.stringChecked {} = some "*" ∧
    (∀ (b : Bool) (n : String),
        (NewQuery ([QOpt.all b, QOpt.name n].map QOpt.apply)).All = b ∧
        (NewQuery ([QOpt.all b, QOpt.name n].map QOpt.apply)).Name = n) :=
  ⟨stringChecked_eq_some_string, rfl, fun _ _ => ⟨rfl, rfl⟩⟩

end PackManager
